import Mathlib

/-!
Verification of the decomp-toolkit specification against its code.

The command-line entry point (src/main.rs) is embedded directly from the
source.  The core components the specification describes (ObjectModel,
ElfCodec, RelocationResolver, ControlFlowAnalyzer, RelCodec, RsoCodec) are
not present under src/, so they are modelled from the specification text;
each such definition carries a doc comment starting with
`Modelled from the spec:` naming what is missing.
-/

namespace DecompToolkit

/-! ## Command-line entry point (embedded from src/main.rs) -/

/-- The `LogLevel` enum from src/main.rs lines 11-18. -/
inductive LogLevel
  | error
  | warn
  | info
  | debug
  | trace
deriving DecidableEq, Repr

/-- `LogLevel::from_str` from src/main.rs lines 20-33: a match over the five
string literals, every other string yielding `Err(())`. -/
def LogLevel.fromStr (s : String) : Except Unit LogLevel :=
  if s = "error" then .ok .error
  else if s = "warn" then .ok .warn
  else if s = "info" then .ok .info
  else if s = "debug" then .ok .debug
  else if s = "trace" then .ok .trace
  else .error ()

/-- `LogLevel::to_string` from src/main.rs lines 35-46. -/
def LogLevel.toStr : LogLevel → String
  | .error => "error"
  | .warn => "warn"
  | .info => "info"
  | .debug => "debug"
  | .trace => "trace"

/-- The `SubCommand` enum from src/main.rs lines 72-86; each variant carries
its (here abstract) argument record. -/
inductive SubCommand
  | ar (a : Nat)
  | demangle (a : Nat)
  | dol (a : Nat)
  | dwarf (a : Nat)
  | elf (a : Nat)
  | elf2dol (a : Nat)
  | metroidBuildInfo (a : Nat)
  | rel (a : Nat)
  | rso (a : Nat)
  | shasum (a : Nat)
deriving DecidableEq, Repr

/-- The `TopLevel` argument record from src/main.rs lines 55-70. -/
structure TopLevel where
  command : SubCommand
  chdir : Option String
  logLevel : LogLevel
  version : Bool
deriving DecidableEq, Repr

/-- The external world seen by `main`: the operating-system directory change
(`std::env::set_current_dir`) and the per-subcommand `cmd::*::run` entry
points.  A failure is the causal chain of context strings carried by the
`anyhow` error value. -/
structure Env where
  setCurrentDir : String → Except String Unit
  run : SubCommand → Except (List String) Unit

/-- Rendering of the `{e:?}` debug form of an `anyhow` error: the context
chain, outermost first. -/
def formatErr (chain : List String) : String :=
  String.intercalate ": " chain

/-- The observable outcome of one `main` invocation: the process exit status,
the lines printed to the error stream, and the trace of subcommand `run`
functions that were invoked. -/
structure MainOutcome where
  exitCode : Nat
  errOutput : List String
  dispatched : List SubCommand
deriving DecidableEq, Repr

/-- `main` from src/main.rs lines 88-118: the parsed log level is never
consulted (the subscriber is installed without it, line 91); if `--chdir` is
given, `set_current_dir` runs first and its failure short-circuits the
`and_then` on line 101, so the subcommand is dispatched only when the
directory change (if any) succeeded; an `Err` result prints
`Failed: {e:?}` and exits with status 1, otherwise `main` falls off the end
with status 0. -/
def mainRun (env : Env) (args : TopLevel) : MainOutcome :=
  let chdirResult : Except (List String) Unit :=
    match args.chdir with
    | some dir =>
      match env.setCurrentDir dir with
      | .ok _ => .ok ()
      | .error e =>
        .error ["Failed to change working directory to \x27" ++ dir ++ "\x27", e]
    | none => .ok ()
  match chdirResult with
  | .error e =>
    { exitCode := 1, errOutput := ["Failed: " ++ formatErr e], dispatched := [] }
  | .ok _ =>
    match env.run args.command with
    | .ok _ => { exitCode := 0, errOutput := [], dispatched := [args.command] }
    | .error e =>
      { exitCode := 1
        errOutput := ["Failed: " ++ formatErr e]
        dispatched := [args.command] }

/-! ## ObjectModel (modelled from the spec, section 3 and 4.1) -/

/-- Modelled from the spec: a Section of the ObjectModel (spec section 3) —
an ordered sequence of bytes, a name, a kind, and a base alignment.  The
ObjectModel sources are not under src/.  Names are abstracted to numeric
identifiers and the byte buffer to a list of numeric fields. -/
structure ObjSection where
  name : Nat
  kind : Nat
  align : Nat
  data : List Nat
deriving DecidableEq, Repr, Inhabited

/-- Modelled from the spec: a Symbol (spec section 3) — a name, an owning
section reference or `none` for external, an offset, a size, a binding and
a kind. -/
structure ObjSymbol where
  name : Nat
  sec : Option Nat
  offset : Nat
  size : Nat
  binding : Nat
  skind : Nat
deriving DecidableEq, Repr

/-- Modelled from the spec: a Relocation (spec section 3) — a location
(section index + offset), a target symbol index, a platform relocation type
and a signed addend. -/
structure Reloc where
  sec : Nat
  offset : Nat
  sym : Nat
  rtype : Nat
  addend : Int
deriving DecidableEq, Repr

/-- Modelled from the spec: a Module (spec section 3) — sections, a symbol
table and a relocation list. -/
structure Module where
  sections : List ObjSection
  symbols : List ObjSymbol
  relocs : List Reloc
deriving DecidableEq, Repr

/-- A relocation lies inside its owning section: the section index is in
range and the offset is strictly below the section byte length (spec
section 8, bounds invariant). -/
def relocInBounds (secs : List ObjSection) (r : Reloc) : Prop :=
  r.sec < secs.length ∧ r.offset < (secs.getD r.sec default).data.length

instance (secs : List ObjSection) (r : Reloc) : Decidable (relocInBounds secs r) :=
  inferInstanceAs (Decidable (_ ∧ _))

/-- A section reference of a symbol is either external or an in-range
index. -/
def secIndexOk (n : Nat) : Option Nat → Prop
  | Option.none => True
  | Option.some i => i < n

instance (n : Nat) : (o : Option Nat) → Decidable (secIndexOk n o)
  | Option.none => isTrue trivial
  | Option.some i => Nat.decLt i n

/-- The number of relocation types of the fixed instruction set; the decoder
rejects values outside this range (spec section 4.2). -/
def numRelocTypes : Nat := 16

/-- Well-formedness of a Module: symbol section references are in range, and
every relocation has an in-range symbol index, a known type, and an in-bounds
location. -/
def wfModule (M : Module) : Prop :=
  (∀ y ∈ M.symbols, secIndexOk M.sections.length y.sec) ∧
  (∀ r ∈ M.relocs,
    relocInBounds M.sections r ∧ r.sym < M.symbols.length ∧
    r.rtype < numRelocTypes)

instance (M : Module) : Decidable (wfModule M) :=
  inferInstanceAs (Decidable (_ ∧ _))

/-! ## ElfCodec (modelled from the spec, section 4.2) -/

/-- Canonical ordering of relocation lists: grouped by section index, and
inside a section by ascending offset (spec section 8). -/
def relocLE (r1 r2 : Reloc) : Prop :=
  r1.sec < r2.sec ∨ (r1.sec = r2.sec ∧ r1.offset ≤ r2.offset)

instance : DecidableRel relocLE := fun _ _ =>
  inferInstanceAs (Decidable (_ ∨ _))

instance : IsTotal Reloc relocLE :=
  ⟨fun a b => by
    rcases Nat.lt_trichotomy a.sec b.sec with h | h | h
    · exact Or.inl (Or.inl h)
    · rcases Nat.le_total a.offset b.offset with h2 | h2
      · exact Or.inl (Or.inr ⟨h, h2⟩)
      · exact Or.inr (Or.inr ⟨h.symm, h2⟩)
    · exact Or.inr (Or.inl h)⟩

instance : IsTrans Reloc relocLE :=
  ⟨fun a b c hab hbc => by
    rcases hab with h | ⟨he, ho⟩ <;> rcases hbc with h2 | ⟨he2, ho2⟩
    · exact Or.inl (Nat.lt_trans h h2)
    · exact Or.inl (he2 ▸ h)
    · exact Or.inl (he ▸ h2)
    · exact Or.inr ⟨he.trans he2, ho.trans ho2⟩⟩

/-- The encoder emits relocations in canonical order (spec section 4.2:
re-emitted relocation lists, section 8: ascending offsets). -/
def canonRelocs (rs : List Reloc) : List Reloc :=
  rs.insertionSort relocLE

/-- The canonical form of a Module: same sections and symbols, relocation
list sorted into canonical order. -/
def canonModule (M : Module) : Module :=
  { M with relocs := canonRelocs M.relocs }

/-- Structural equivalence of Modules: same sections, same symbols, same
relocations up to order (spec section 8, semantic equivalence). -/
def structEquiv (M1 M2 : Module) : Prop :=
  M1.sections = M2.sections ∧ M1.symbols = M2.symbols ∧
  M1.relocs.Perm M2.relocs

/-- A magic number, checked first by decode (spec section 7, bad magic). -/
def objMagic : Nat := 2135247942

/-- Encoding of an external-or-index section reference as one field. -/
def encodeSecRef : Option Nat → Nat
  | Option.none => 0
  | Option.some i => i + 1

/-- Zigzag encoding of the signed addend into an unsigned field. -/
def encodeInt (a : Int) : Nat :=
  if a < 0 then 2 * a.natAbs - 1 else 2 * a.toNat

/-- Zigzag decoding of an unsigned field into a signed addend. -/
def decodeInt (n : Nat) : Int :=
  if n % 2 = 0 then ((n / 2 : Nat) : Int) else -(((n + 1) / 2 : Nat) : Int)

/-- Modelled from the spec: ElfCodec serialization of one section header and
its contents (spec section 4.2; the ElfCodec sources are not under src/).
The buffer is abstracted as a list of numeric fields. -/
def encSection (s : ObjSection) : List Nat :=
  [s.name, s.kind, s.align, s.data.length] ++ s.data

/-- Modelled from the spec: ElfCodec serialization of one symbol-table
entry. -/
def encSymbol (y : ObjSymbol) : List Nat :=
  [y.name, encodeSecRef y.sec, y.offset, y.size, y.binding, y.skind]

/-- Modelled from the spec: ElfCodec serialization of one relocation
entry. -/
def encReloc (r : Reloc) : List Nat :=
  [r.sec, r.offset, r.sym, r.rtype, encodeInt r.addend]

/-- Raw module serialization at a given relocation order. -/
def encodeModuleRaw (M : Module) : List Nat :=
  [objMagic, M.sections.length] ++ M.sections.flatMap encSection ++
  [M.symbols.length] ++ M.symbols.flatMap encSymbol ++
  [M.relocs.length] ++ M.relocs.flatMap encReloc

/-- Modelled from the spec: ElfCodec encode (spec section 4.2) — emits the
section table, the symbol table, and the relocation list re-emitted in
canonical order. -/
def encodeModule (M : Module) : List Nat :=
  encodeModuleRaw (canonModule M)

/-- Decode failures: every constructor carries the offending field offset
together with the expected and actual values (spec section 7, malformed
input). -/
inductive DecodeError
  | badMagic (offset expected actual : Nat)
  | truncated (offset expected actual : Nat)
  | badIndex (offset expected actual : Nat)
  | badValue (offset expected actual : Nat)
deriving DecidableEq, Repr

/-- Reads one field, failing with a truncation error at the current offset
when the buffer is exhausted. -/
def readField (pos : Nat) (l : List Nat) :
    Except DecodeError (Nat × Nat × List Nat) :=
  match l with
  | [] => .error (.truncated pos 1 0)
  | x :: rest => .ok (x, pos + 1, rest)

/-- Reads a run of `n` fields. -/
def readData : Nat → Nat → List Nat → Except DecodeError (List Nat × Nat × List Nat)
  | pos, 0, l => .ok ([], pos, l)
  | pos, n + 1, l =>
    match readField pos l with
    | .error e => .error e
    | .ok (x, p1, l1) =>
      match readData p1 n l1 with
      | .error e => .error e
      | .ok (xs, p2, l2) => .ok (x :: xs, p2, l2)

/-- Decodes a counted sequence with a given element decoder. -/
def decodeList {α : Type}
    (dec : Nat → List Nat → Except DecodeError (α × Nat × List Nat)) :
    Nat → Nat → List Nat → Except DecodeError (List α × Nat × List Nat)
  | 0, pos, l => .ok ([], pos, l)
  | n + 1, pos, l =>
    match dec pos l with
    | .error e => .error e
    | .ok (a, p1, l1) =>
      match decodeList dec n p1 l1 with
      | .error e => .error e
      | .ok (as, p2, l2) => .ok (a :: as, p2, l2)

/-- Modelled from the spec: ElfCodec section decoding (spec section 4.2). -/
def decodeSection (pos : Nat) (l : List Nat) :
    Except DecodeError (ObjSection × Nat × List Nat) :=
  match l with
  | [] => .error (.truncated pos 1 0)
  | nm :: l1 =>
    match l1 with
    | [] => .error (.truncated (pos + 1) 1 0)
    | kd :: l2 =>
      match l2 with
      | [] => .error (.truncated (pos + 2) 1 0)
      | al :: l3 =>
        match l3 with
        | [] => .error (.truncated (pos + 3) 1 0)
        | len :: l4 =>
          match readData (pos + 4) len l4 with
          | .error e => .error e
          | .ok (dt, p5, l5) =>
            .ok ({ name := nm, kind := kd, align := al, data := dt }, p5, l5)

/-- Modelled from the spec: ElfCodec symbol decoding; validates that the
section reference is in range (spec section 4.2). -/
def decodeSymbol (nsec : Nat) (pos : Nat) (l : List Nat) :
    Except DecodeError (ObjSymbol × Nat × List Nat) :=
  match l with
  | nm :: secF :: off :: sz :: bd :: kd :: l6 =>
    match secF with
    | 0 =>
      .ok ({ name := nm, sec := Option.none, offset := off, size := sz,
             binding := bd, skind := kd }, pos + 6, l6)
    | i + 1 =>
      if i < nsec then
        .ok ({ name := nm, sec := Option.some i, offset := off, size := sz,
               binding := bd, skind := kd }, pos + 6, l6)
      else .error (.badIndex (pos + 1) nsec secF)
  | l2 => .error (.truncated (pos + l2.length) 1 0)

/-- Modelled from the spec: ElfCodec relocation decoding; validates the
section index, the location bound, the symbol index, and rejects unknown
relocation types (spec sections 4.2 and 7). -/
def decodeReloc (secs : List ObjSection) (nsym : Nat) (pos : Nat)
    (l : List Nat) : Except DecodeError (Reloc × Nat × List Nat) :=
  match l with
  | secI :: off :: symI :: ty :: ad :: l5 =>
    if secI < secs.length then
      if off < (secs.getD secI default).data.length then
        if symI < nsym then
          if ty < numRelocTypes then
            .ok ({ sec := secI, offset := off, sym := symI, rtype := ty,
                   addend := decodeInt ad }, pos + 5, l5)
          else .error (.badValue (pos + 3) numRelocTypes ty)
        else .error (.badIndex (pos + 2) nsym symI)
      else .error (.badIndex (pos + 1) (secs.getD secI default).data.length off)
    else .error (.badIndex pos secs.length secI)
  | l2 => .error (.truncated (pos + l2.length) 1 0)

/-- Modelled from the spec: ElfCodec decode (spec section 4.2) — checks the
magic, then reads the section table, the symbol table and the relocation
list, validating all indices; trailing fields are rejected. -/
def decodeModule (l : List Nat) : Except DecodeError Module :=
  match l with
  | [] => .error (.truncated 0 1 0)
  | magic :: l1 =>
    if magic ≠ objMagic then .error (.badMagic 0 objMagic magic)
    else
      match l1 with
      | [] => .error (.truncated 1 1 0)
      | nsec :: l2 =>
        match decodeList decodeSection nsec 2 l2 with
        | .error e => .error e
        | .ok (secs, p3, l3) =>
          match l3 with
          | [] => .error (.truncated p3 1 0)
          | nsym :: l4 =>
            match decodeList (decodeSymbol secs.length) nsym (p3 + 1) l4 with
            | .error e => .error e
            | .ok (syms, p5, l5) =>
              match l5 with
              | [] => .error (.truncated p5 1 0)
              | nrel :: l6 =>
                match decodeList (decodeReloc secs syms.length) nrel (p5 + 1) l6 with
                | .error e => .error e
                | .ok (rels, p7, l7) =>
                  match l7 with
                  | [] => .ok { sections := secs, symbols := syms, relocs := rels }
                  | _ :: l8 => .error (.badValue p7 0 (l8.length + 1))

/-- Decode in the style of filling a caller-provided Module: on any decode
error the Module is left exactly as it was (spec section 7: decode never
partially populates a Module). -/
def decodeInto (m0 : Module) (l : List Nat) : Module :=
  match decodeModule l with
  | .ok m => m
  | .error _ => m0

/-! ## ObjectModel mutation surface (modelled from the spec, section 4.1) -/

/-- The empty ObjectModel a decode step starts from. -/
def emptyModule : Module := { sections := [], symbols := [], relocs := [] }

/-- Modelled from the spec: appending a section during decode (spec
section 4.1). -/
def addSection (m : Module) (s : ObjSection) : Module :=
  { m with sections := m.sections ++ [s] }

/-- Modelled from the spec: appending a symbol during decode (spec
section 4.1). -/
def addSymbol (m : Module) (y : ObjSymbol) : Module :=
  { m with symbols := m.symbols ++ [y] }

/-- Modelled from the spec: appending a relocation validates offset bounds
immediately and fails the operation if violated, rather than deferring to a
later pass (spec section 4.1). -/
def addReloc (m : Module) (r : Reloc) : Option Module :=
  if relocInBounds m.sections r then
    some { m with relocs := m.relocs ++ [r] }
  else none

/-- The append operations the ObjectModel exposes during decode. -/
inductive ModelOp
  | addSec (s : ObjSection)
  | addSym (y : ObjSymbol)
  | addRel (r : Reloc)

/-- One ObjectModel append step. -/
def applyOp (m : Module) : ModelOp → Option Module
  | .addSec s => some (addSection m s)
  | .addSym y => some (addSymbol m y)
  | .addRel r => addReloc m r

/-- A sequence of ObjectModel append steps, failing as soon as one step
fails. -/
def applyOps (m : Module) : List ModelOp → Option Module
  | [] => some m
  | op :: ops =>
    match applyOp m op with
    | some m2 => applyOps m2 ops
    | none => none

/-! ## ControlFlowAnalyzer (modelled from the spec, sections 4.4 and 5) -/

/-- Modelled from the spec: the static classification of one instruction
(spec section 4.4) — continue, unconditional branch, conditional branch,
call, or return/trap.  The ControlFlowAnalyzer sources are not under
src/. -/
inductive InstrKind
  | cont
  | uncond (target : Nat)
  | cond (target : Nat)
  | call (target : Nat)
  | ret

/-- The control-flow successors of the instruction at an offset: fall
through, branch target, or both (spec section 4.4). -/
def succOffsets (f : Nat → InstrKind) (o : Nat) : List Nat :=
  match f o with
  | .cont => [o + 1]
  | .uncond t => [t]
  | .cond t => [t, o + 1]
  | .call t => [t, o + 1]
  | .ret => []

/-- Modelled from the spec: the ControlFlowAnalyzer worklist traversal (spec
sections 4.4 and 5) over one code section of length `len`: an explicit
worklist of offsets and an explicit visited set keyed by offset; an offset
already visited (or outside the section) is skipped, otherwise it is marked
visited and its in-section successors are pushed.  The fuel argument makes
the recursion structural; the termination theorem shows a fuel linear in the
section length always suffices, because each offset is visited at most
once. -/
def analyzeFuel (f : Nat → InstrKind) (len : Nat) :
    Nat → List Nat → List Nat → Option (List Nat)
  | 0, _, _ => Option.none
  | _ + 1, visited, [] => Option.some visited
  | fuel + 1, visited, o :: rest =>
    if o ∈ visited ∨ len ≤ o then analyzeFuel f len fuel visited rest
    else
      analyzeFuel f len fuel (o :: visited)
        (((succOffsets f o).filter (fun t => t < len)) ++ rest)

/-- The analyzer run on a code section, seeded with the function-entry
symbol offsets, with the fuel bound the termination proof shows
sufficient. -/
def analyzeSection (f : Nat → InstrKind) (len : Nat) (seeds : List Nat) :
    Option (List Nat) :=
  analyzeFuel f len (3 * len + seeds.length + 1) [] seeds

/-! ## RelCodec (modelled from the spec, section 4.5) -/

/-- Modelled from the spec: a relocation as seen by RelCodec encode (spec
section 4.5): the resolved target module (`none` when the target module
cannot be determined), the location section and offset, and the type.  The
RelCodec sources are not under src/. -/
structure RelReloc where
  target : Option Nat
  sec : Nat
  offset : Nat
  rtype : Nat
deriving DecidableEq, Repr

/-- One entry of a per-target-module group: location section, offset and
relocation type. -/
structure RelEntry where
  sec : Nat
  offset : Nat
  rtype : Nat
deriving DecidableEq, Repr

/-- Modelled from the spec: the opcodes of the relocation stream (spec
section 4.5): offset-skip, patch with a 16-bit delta, section-switch marker,
and stream terminator. -/
inductive RelOp
  | skip (delta : Nat)
  | patch (rtype delta : Nat)
  | switchSec (sec : Nat)
  | stop
deriving DecidableEq, Repr

/-- The 16-bit delta range of the format. -/
def relDeltaMax : Nat := 65535

/-- Group ordering: by location section, then by ascending offset (spec
section 4.5: sorting within each group by ascending offset is a hard
requirement of the format). -/
def entryLE (a b : RelEntry) : Prop :=
  a.sec < b.sec ∨ (a.sec = b.sec ∧ a.offset ≤ b.offset)

instance : DecidableRel entryLE := fun _ _ =>
  inferInstanceAs (Decidable (_ ∨ _))

instance : IsTotal RelEntry entryLE :=
  ⟨fun a b => by
    rcases Nat.lt_trichotomy a.sec b.sec with h | h | h
    · exact Or.inl (Or.inl h)
    · rcases Nat.le_total a.offset b.offset with h2 | h2
      · exact Or.inl (Or.inr ⟨h, h2⟩)
      · exact Or.inr (Or.inr ⟨h.symm, h2⟩)
    · exact Or.inr (Or.inl h)⟩

instance : IsTrans RelEntry entryLE :=
  ⟨fun a b c hab hbc => by
    rcases hab with h | ⟨he, ho⟩ <;> rcases hbc with h2 | ⟨he2, ho2⟩
    · exact Or.inl (Nat.lt_trans h h2)
    · exact Or.inl (he2 ▸ h)
    · exact Or.inl (he ▸ h2)
    · exact Or.inr ⟨he.trans he2, ho.trans ho2⟩⟩

/-- Sorting of one module group into the order the format requires. -/
def sortEntries (es : List RelEntry) : List RelEntry :=
  es.insertionSort entryLE

/-- Fuel-bounded skip emission; the fuel only bounds the recursion depth and
is in surplus whenever `d ≤ relDeltaMax * (fuel + 1)`. -/
def emitSkipsF : Nat → Nat → List RelOp × Nat
  | 0, d => ([], d)
  | fuel + 1, d =>
    if d ≤ relDeltaMax then ([], d)
    else
      (RelOp.skip relDeltaMax :: (emitSkipsF fuel (d - relDeltaMax)).1,
       (emitSkipsF fuel (d - relDeltaMax)).2)

/-- A gap larger than the delta range forces emission of skip opcodes (spec
section 4.5); returns the skip opcodes and the residual delta. -/
def emitSkips (d : Nat) : List RelOp × Nat :=
  emitSkipsF d d

/-- Modelled from the spec: RelCodec encode of one module group (spec
section 4.5): entries in ascending order, offsets as deltas from a running
cursor, a section-switch marker (resetting the cursor) whenever consecutive
relocations target different sections, and a stream terminator. -/
def encodeGroupGo : Option Nat → Nat → List RelEntry → List RelOp
  | _, _, [] => [RelOp.stop]
  | cs, cur, e :: rest =>
    if cs = Option.some e.sec then
      (emitSkips (e.offset - cur)).1 ++
        RelOp.patch e.rtype (emitSkips (e.offset - cur)).2 ::
          encodeGroupGo cs e.offset rest
    else
      RelOp.switchSec e.sec ::
        ((emitSkips e.offset).1 ++
          RelOp.patch e.rtype (emitSkips e.offset).2 ::
            encodeGroupGo (Option.some e.sec) e.offset rest)

/-- RelCodec encode of one module group from the initial state. -/
def encodeGroup (es : List RelEntry) : List RelOp :=
  encodeGroupGo Option.none 0 es

/-- Modelled from the spec: RelCodec decode of one module group (spec
section 4.5): replays the opcode stream, maintaining the current section and
the running cursor, and reconstructs absolute relocation entries. -/
def decodeGroupGo : Option Nat → Nat → List RelOp → Option (List RelEntry)
  | _, _, [] => Option.none
  | cs, cur, op :: rest =>
    match op with
    | RelOp.stop => if rest = [] then Option.some [] else Option.none
    | RelOp.skip d => decodeGroupGo cs (cur + d) rest
    | RelOp.switchSec s => decodeGroupGo (Option.some s) 0 rest
    | RelOp.patch t d =>
      match cs with
      | Option.none => Option.none
      | Option.some s =>
        (decodeGroupGo cs (cur + d) rest).map
          (fun es => { sec := s, offset := cur + d, rtype := t } :: es)

/-- RelCodec decode of one module group from the initial state. -/
def decodeGroup (ops : List RelOp) : Option (List RelEntry) :=
  decodeGroupGo Option.none 0 ops

/-- The group entry of one relocation. -/
def toEntry (r : RelReloc) : RelEntry :=
  { sec := r.sec, offset := r.offset, rtype := r.rtype }

/-- The index of the first relocation whose target module cannot be
determined, if any. -/
def firstUnresolved : List RelReloc → Option Nat
  | [] => Option.none
  | r :: rs =>
    if r.target = Option.none then Option.some 0
    else (firstUnresolved rs).map (· + 1)

/-- The distinct target module identifiers, in ascending order. -/
def groupModules (rs : List RelReloc) : List Nat :=
  ((rs.filterMap RelReloc.target).dedup).insertionSort (· ≤ ·)

/-- Modelled from the spec: RelCodec encode (spec section 4.5): a relocation
whose target module cannot be determined is a hard failure naming that
relocation (the format has no external-relocation slot); otherwise the
relocations are partitioned by resolved target module, sorted within each
group, and each group is emitted as one opcode stream. -/
def encodeRel (rs : List RelReloc) : Except Nat (List (Nat × List RelOp)) :=
  match firstUnresolved rs with
  | Option.some i => .error i
  | Option.none =>
    .ok ((groupModules rs).map (fun m =>
      (m, encodeGroup (sortEntries
        ((rs.filter (fun r => r.target = Option.some m)).map toEntry)))))

/-- The (section, cursor) position at each patch opcode of a stream. -/
def patchPositions : Option Nat → Nat → List RelOp → List (Option Nat × Nat)
  | _, _, [] => []
  | cs, cur, op :: rest =>
    match op with
    | RelOp.stop => patchPositions cs cur rest
    | RelOp.skip d => patchPositions cs (cur + d) rest
    | RelOp.switchSec s => patchPositions (Option.some s) 0 rest
    | RelOp.patch _ d => (cs, cur + d) :: patchPositions cs (cur + d) rest

/-- Monotone cursor: at every pair of consecutive patches inside one section
run, the cursor does not decrease (the loader assumes a monotonically
increasing cursor; the cursor restarts at a section-switch marker). -/
def cursorMono (ops : List RelOp) : Prop :=
  List.Chain' (fun a b => a.1 = b.1 → a.2 ≤ b.2)
    (patchPositions Option.none 0 ops)

/-- The encode-side precondition threaded through one group: the next entry
in the current section never moves the cursor backwards. -/
def groupOrdered : Option Nat → Nat → List RelEntry → Prop
  | _, _, [] => True
  | cs, cur, e :: rest =>
    (cs = Option.some e.sec → cur ≤ e.offset) ∧
    groupOrdered (Option.some e.sec) e.offset rest

/-! ## Concrete examples used as witnesses -/

/-- A two-relocation module whose relocation list is not in canonical
order. -/
def exampleModule : Module :=
  { sections := [{ name := 1, kind := 0, align := 4, data := [10, 11, 12] }],
    symbols := [{ name := 2, sec := Option.some 0, offset := 0, size := 3,
                  binding := 1, skind := 0 }],
    relocs := [{ sec := 0, offset := 2, sym := 0, rtype := 1, addend := -1 },
               { sec := 0, offset := 0, sym := 0, rtype := 2, addend := 3 }] }


/-- The append operations used by the witness of the bounds claim. -/
def exampleOps : List ModelOp :=
  [.addSec { name := 1, kind := 0, align := 4, data := [10, 11, 12] },
   .addRel { sec := 0, offset := 2, sym := 0, rtype := 1, addend := -1 }]


/-- Three resolved relocations of module group 1, given out of order, with a
gap larger than the delta range. -/
def exampleRelRelocs : List RelReloc :=
  [{ target := Option.some 1, sec := 0, offset := 70000, rtype := 2 },
   { target := Option.some 1, sec := 0, offset := 4, rtype := 1 },
   { target := Option.some 1, sec := 1, offset := 8, rtype := 1 }]

/-- A relocation list with one truly unresolved import at index 1. -/
def exampleUnresolved : List RelReloc :=
  [{ target := Option.some 0, sec := 0, offset := 0, rtype := 1 },
   { target := Option.none, sec := 0, offset := 4, rtype := 1 }]

/-- The opcode stream RelCodec encode produces for `exampleRelRelocs`. -/
def exampleStream : List RelOp :=
  [RelOp.switchSec 0, RelOp.patch 1 4, RelOp.skip 65535, RelOp.patch 2 4461,
   RelOp.switchSec 1, RelOp.patch 1 8, RelOp.stop]

/-! ## Claims C7 to C10 -/

/-- C9: `LogLevel` parsing and printing round-trip: `from_str` recovers every
printed level, and rejects every string other than the five literals. -/
theorem logLevel_roundTrip :
    (∀ l : LogLevel, LogLevel.fromStr (LogLevel.toStr l) = .ok l) ∧
    (∀ s : String,
      s ∉ ["error", "warn", "info", "debug", "trace"] →
      LogLevel.fromStr s = .error ()) := by
  constructor
  · intro l
    cases l <;> rfl
  · intro s hs
    simp only [List.mem_cons, List.mem_singleton, not_or] at hs
    obtain ⟨h1, h2, h3, h4, h5, _⟩ := hs
    simp [LogLevel.fromStr, h1, h2, h3, h4, h5]

/-- Witness for `logLevel_roundTrip` at the level `info` and the rejected
string `verbose`. -/
theorem logLevel_roundTrip_witness :
    LogLevel.fromStr (LogLevel.toStr .info) = .ok .info ∧
    LogLevel.fromStr "verbose" = .error () := by
  refine ⟨logLevel_roundTrip.1 .info, logLevel_roundTrip.2 "verbose" ?_⟩
  decide

/-- C7: when the directory change (if requested) succeeds, the process exits
with status 0 exactly when the dispatched subcommand run succeeds, and on a
core failure it exits with status 1 after printing the causal chain to the
error stream.  Core operations are typed as `Except`-returning (structured
outcomes); only `mainRun` itself produces an exit status. -/
theorem main_exit_status (env : Env) (args : TopLevel)
    (hch : ∀ dir, args.chdir = some dir → env.setCurrentDir dir = .ok ()) :
    (env.run args.command = .ok () →
      (mainRun env args).exitCode = 0 ∧ (mainRun env args).errOutput = []) ∧
    (∀ chain, env.run args.command = .error chain →
      (mainRun env args).exitCode = 1 ∧
      (mainRun env args).errOutput = ["Failed: " ++ formatErr chain]) := by
  have hres : (match args.chdir with
      | some dir =>
        match env.setCurrentDir dir with
        | .ok _ => (.ok () : Except (List String) Unit)
        | .error e =>
          .error ["Failed to change working directory to \x27" ++ dir ++ "\x27", e]
      | none => .ok ()) = (.ok () : Except (List String) Unit) := by
    cases hdir : args.chdir with
    | none => rfl
    | some dir => simp [hch dir hdir]
  constructor
  · intro hrun
    simp [mainRun, hres, hrun]
  · intro chain hrun
    simp [mainRun, hres, hrun]

/-- Witness for `main_exit_status`: a concrete environment whose `ar` run
succeeds and whose `rel` run fails. -/
theorem main_exit_status_witness :
    (mainRun
      { setCurrentDir := fun _ => .ok ()
        run := fun c => match c with
          | .rel _ => .error ["rel failed"]
          | _ => .ok () }
      { command := .ar 0, chdir := none, logLevel := .info,
        version := false }).exitCode = 0 ∧
    (mainRun
      { setCurrentDir := fun _ => .ok ()
        run := fun c => match c with
          | .rel _ => .error ["rel failed"]
          | _ => .ok () }
      { command := .rel 0, chdir := none, logLevel := .info,
        version := false }).exitCode = 1 := by
  constructor
  · exact ((main_exit_status
      { setCurrentDir := fun _ => .ok ()
        run := fun c => match c with
          | .rel _ => .error ["rel failed"]
          | _ => .ok () }
      { command := .ar 0, chdir := none, logLevel := .info, version := false }
      (by intro dir h; cases h)).1 rfl).1
  · exact ((main_exit_status
      { setCurrentDir := fun _ => .ok ()
        run := fun c => match c with
          | .rel _ => .error ["rel failed"]
          | _ => .ok () }
      { command := .rel 0, chdir := none, logLevel := .info, version := false }
      (by intro dir h; cases h)).2 ["rel failed"] rfl).1

/-- C8: when `--chdir` is given and the directory change fails, no subcommand
run function is invoked, the process exits with status 1, and the error
output names the directory that could not be entered. -/
theorem main_chdir_failure (env : Env) (args : TopLevel) (dir msg : String)
    (hdir : args.chdir = some dir)
    (hfail : env.setCurrentDir dir = .error msg) :
    (mainRun env args).dispatched = [] ∧
    (mainRun env args).exitCode = 1 ∧
    (mainRun env args).errOutput =
      ["Failed: " ++ formatErr
        ["Failed to change working directory to \x27" ++ dir ++ "\x27", msg]] := by
  simp [mainRun, hdir, hfail]

/-- Witness for `main_chdir_failure` at a concrete failing environment. -/
theorem main_chdir_failure_witness :
    (mainRun
      { setCurrentDir := fun _ => .error "No such file or directory"
        run := fun _ => .ok () }
      { command := .ar 0, chdir := some "/missing", logLevel := .info,
        version := false }).dispatched = [] := by
  exact (main_chdir_failure
    { setCurrentDir := fun _ => .error "No such file or directory"
      run := fun _ => .ok () }
    { command := .ar 0, chdir := some "/missing", logLevel := .info,
      version := false }
    "/missing" "No such file or directory" rfl rfl).1

/-- C10: the parsed `--log-level` value has no effect on behavior: two
invocations identical except for the log level produce the same outcome
(same directory change, same dispatch, same exit status and error output);
line 91 of src/main.rs never applies the level to the subscriber. -/
theorem main_log_level_irrelevant (env : Env) (args : TopLevel)
    (l1 l2 : LogLevel) :
    mainRun env { args with logLevel := l1 } =
    mainRun env { args with logLevel := l2 } := rfl

/-! ## Codec lemmas -/

theorem decodeInt_encodeInt (a : Int) : decodeInt (encodeInt a) = a := by
  unfold encodeInt decodeInt
  by_cases h : a < 0
  · rw [if_pos h]
    have h1 : 1 ≤ a.natAbs := by omega
    rw [if_neg (by omega)]
    have h2 : (2 * a.natAbs - 1 + 1) / 2 = a.natAbs := by omega
    rw [h2]
    omega
  · rw [if_neg h]
    rw [if_pos (by omega)]
    omega

theorem encodeInt_decodeInt (n : Nat) : encodeInt (decodeInt n) = n := by
  unfold decodeInt encodeInt
  by_cases h : n % 2 = 0
  · rw [if_pos h]
    rw [if_neg (by omega)]
    omega
  · rw [if_neg h]
    rw [if_pos (by omega)]
    omega

theorem readData_append (xs : List Nat) (pos : Nat) (rest : List Nat) :
    readData pos xs.length (xs ++ rest) = .ok (xs, pos + xs.length, rest) := by
  induction xs generalizing pos with
  | nil => simp [readData]
  | cons x xs ih =>
    simp [readData, readField, ih, Nat.add_comm, Nat.add_left_comm, Nat.add_assoc]

theorem readData_ok : ∀ {n pos : Nat} {l : List Nat} {xs : List Nat} {p : Nat}
    {rest : List Nat}, readData pos n l = .ok (xs, p, rest) →
    l = xs ++ rest ∧ xs.length = n := by
  intro n
  induction n with
  | zero =>
    intro pos l xs p rest h
    simp [readData] at h
    obtain ⟨h1, h2, h3⟩ := h
    subst h1; subst h2; subst h3
    exact ⟨rfl, rfl⟩
  | succ n ih =>
    intro pos l xs p rest h
    cases l with
    | nil => simp [readData, readField] at h
    | cons a l2 =>
      simp only [readData, readField] at h
      cases h2 : readData (pos + 1) n l2 with
      | error e => rw [h2] at h; simp at h
      | ok v =>
        obtain ⟨xs2, p2, l3⟩ := v
        rw [h2] at h
        simp at h
        obtain ⟨h1, h3, h4⟩ := h
        obtain ⟨hl, hn⟩ := ih h2
        subst h1; subst h3; subst h4; subst hl; subst hn
        simp

theorem decodeSection_enc (s : ObjSection) (pos : Nat) (rest : List Nat) :
    decodeSection pos (encSection s ++ rest) =
      .ok (s, pos + 4 + s.data.length, rest) := by
  obtain ⟨nm, kd, al, dt⟩ := s
  simp [decodeSection, encSection, readData_append]

theorem decodeSymbol_enc (nsec : Nat) (y : ObjSymbol) (hy : secIndexOk nsec y.sec)
    (pos : Nat) (rest : List Nat) :
    decodeSymbol nsec pos (encSymbol y ++ rest) = .ok (y, pos + 6, rest) := by
  obtain ⟨nm, sc, off, sz, bd, kd⟩ := y
  cases sc with
  | none => simp [decodeSymbol, encSymbol, encodeSecRef]
  | some i =>
    simp only [secIndexOk] at hy
    simp [decodeSymbol, encSymbol, encodeSecRef, hy]

theorem decodeReloc_enc (secs : List ObjSection) (nsym : Nat) (r : Reloc)
    (hb : relocInBounds secs r) (hsym : r.sym < nsym)
    (hty : r.rtype < numRelocTypes) (pos : Nat) (rest : List Nat) :
    decodeReloc secs nsym pos (encReloc r ++ rest) = .ok (r, pos + 5, rest) := by
  obtain ⟨sc, off, sy, ty, ad⟩ := r
  obtain ⟨h1, h2⟩ := hb
  simp only at h1 h2 hsym hty
  have h2b : off < secs[sc].data.length := by
    rw [List.getD_eq_getElem?_getD, List.getElem?_eq_getElem h1] at h2
    simpa using h2
  simp [decodeReloc, encReloc, h1, h2b, hsym, hty, decodeInt_encodeInt]



theorem decodeList_enc {α : Type}
    (dec : Nat → List Nat → Except DecodeError (α × Nat × List Nat))
    (encA : α → List Nat) (as : List α)
    (hdec : ∀ a ∈ as, ∀ pos rest, ∃ p, dec pos (encA a ++ rest) = .ok (a, p, rest)) :
    ∀ pos rest, ∃ p, decodeList dec as.length pos (as.flatMap encA ++ rest) =
      .ok (as, p, rest) := by
  induction as with
  | nil => intro pos rest; exact ⟨pos, rfl⟩
  | cons a as ih =>
    intro pos rest
    obtain ⟨p1, h1⟩ := hdec a (List.mem_cons_self a as) pos (as.flatMap encA ++ rest)
    obtain ⟨p2, h2⟩ := ih (fun x hx => hdec x (List.mem_cons_of_mem a hx)) p1 rest
    refine ⟨p2, ?_⟩
    simp only [List.flatMap_cons, List.append_assoc, List.length_cons, decodeList]
    rw [h1]
    dsimp only
    rw [h2]

theorem decodeModule_encRaw (M : Module) (h : wfModule M) :
    decodeModule (encodeModuleRaw M) = .ok M := by
  obtain ⟨secs, syms, rels⟩ := M
  obtain ⟨hsym, hrel⟩ := h
  obtain ⟨p3, h3⟩ := decodeList_enc decodeSection encSection secs
    (fun s _ pos rest => ⟨_, decodeSection_enc s pos rest⟩) 2
    (syms.length :: (syms.flatMap encSymbol ++
      (rels.length :: (rels.flatMap encReloc ++ []))))
  obtain ⟨p5, h5⟩ := decodeList_enc (decodeSymbol secs.length) encSymbol syms
    (fun y hy pos rest => ⟨_, decodeSymbol_enc secs.length y (hsym y hy) pos rest⟩)
    (p3 + 1) (rels.length :: (rels.flatMap encReloc ++ []))
  obtain ⟨p7, h7⟩ := decodeList_enc (decodeReloc secs syms.length) encReloc rels
    (fun r hr pos rest => ⟨_, decodeReloc_enc secs syms.length r (hrel r hr).1
      (hrel r hr).2.1 (hrel r hr).2.2 pos rest⟩)
    (p5 + 1) []
  have hshape : encodeModuleRaw ⟨secs, syms, rels⟩ =
      objMagic :: secs.length :: (secs.flatMap encSection ++
        (syms.length :: (syms.flatMap encSymbol ++
          (rels.length :: (rels.flatMap encReloc ++ []))))) := by
    simp [encodeModuleRaw]
  rw [hshape]
  rw [decodeModule]
  rw [if_neg (by simp)]
  rw [h3]
  dsimp only
  rw [h5]
  dsimp only
  rw [h7]



theorem decodeSection_ok {pos : Nat} {l : List Nat} {s : ObjSection} {p : Nat}
    {rest : List Nat} (h : decodeSection pos l = .ok (s, p, rest)) :
    l = encSection s ++ rest := by
  obtain ⟨nm0, kd0, al0, dt0⟩ := s
  cases l with
  | nil => simp [decodeSection] at h
  | cons nm l1 =>
  cases l1 with
  | nil => simp [decodeSection] at h
  | cons kd l2 =>
  cases l2 with
  | nil => simp [decodeSection] at h
  | cons al l3 =>
  cases l3 with
  | nil => simp [decodeSection] at h
  | cons len l4 =>
  simp only [decodeSection] at h
  cases h4 : readData (pos + 4) len l4 with
  | error e => rw [h4] at h; simp at h
  | ok v =>
    obtain ⟨dt, p5, l5⟩ := v
    rw [h4] at h
    simp at h
    obtain ⟨⟨e1, e2, e3, e4⟩, e5, e6⟩ := h
    obtain ⟨hl, hn⟩ := readData_ok h4
    subst e1; subst e2; subst e3; subst e4; subst e5; subst e6; subst hl
    simp [encSection, hn]

theorem decodeSymbol_ok {nsec pos : Nat} {l : List Nat} {y : ObjSymbol} {p : Nat}
    {rest : List Nat} (h : decodeSymbol nsec pos l = .ok (y, p, rest)) :
    l = encSymbol y ++ rest ∧ secIndexOk nsec y.sec := by
  obtain ⟨nm0, sc0, off0, sz0, bd0, kd0⟩ := y
  cases l with
  | nil => simp [decodeSymbol] at h
  | cons nm l1 =>
  cases l1 with
  | nil => simp [decodeSymbol] at h
  | cons secF l2 =>
  cases l2 with
  | nil => simp [decodeSymbol] at h
  | cons off l3 =>
  cases l3 with
  | nil => simp [decodeSymbol] at h
  | cons sz l4 =>
  cases l4 with
  | nil => simp [decodeSymbol] at h
  | cons bd l5 =>
  cases l5 with
  | nil => simp [decodeSymbol] at h
  | cons kd l6 =>
  cases secF with
  | zero =>
    simp only [decodeSymbol] at h
    simp at h
    obtain ⟨⟨e1, e2, e3, e4, e5, e6⟩, e7, e8⟩ := h
    subst e1; subst e3; subst e4; subst e5; subst e6; subst e7; subst e8
    simp [encSymbol, encodeSecRef, ← e2, secIndexOk]
  | succ i =>
    simp only [decodeSymbol] at h
    by_cases hi : i < nsec
    · rw [if_pos hi] at h
      simp at h
      obtain ⟨⟨e1, e2, e3, e4, e5, e6⟩, e7, e8⟩ := h
      subst e1; subst e3; subst e4; subst e5; subst e6; subst e7; subst e8
      simp [encSymbol, encodeSecRef, ← e2, secIndexOk, hi]
    · rw [if_neg hi] at h
      simp at h

theorem decodeReloc_ok {secs : List ObjSection} {nsym pos : Nat} {l : List Nat}
    {r : Reloc} {p : Nat} {rest : List Nat}
    (h : decodeReloc secs nsym pos l = .ok (r, p, rest)) :
    l = encReloc r ++ rest ∧ relocInBounds secs r ∧ r.sym < nsym ∧
      r.rtype < numRelocTypes := by
  obtain ⟨sc0, off0, sy0, ty0, ad0⟩ := r
  cases l with
  | nil => simp [decodeReloc] at h
  | cons secI l1 =>
  cases l1 with
  | nil => simp [decodeReloc] at h
  | cons off l2 =>
  cases l2 with
  | nil => simp [decodeReloc] at h
  | cons symI l3 =>
  cases l3 with
  | nil => simp [decodeReloc] at h
  | cons ty l4 =>
  cases l4 with
  | nil => simp [decodeReloc] at h
  | cons ad l5 =>
  simp only [decodeReloc] at h
  by_cases h1 : secI < secs.length
  · rw [if_pos h1] at h
    by_cases h2 : off < (secs.getD secI default).data.length
    · rw [if_pos h2] at h
      by_cases h3 : symI < nsym
      · rw [if_pos h3] at h
        by_cases h4 : ty < numRelocTypes
        · rw [if_pos h4] at h
          simp at h
          obtain ⟨⟨e1, e2, e3, e4, e5⟩, e6, e7⟩ := h
          subst e1; subst e2; subst e3; subst e4; subst e6; subst e7
          refine ⟨?_, ⟨h1, h2⟩, h3, h4⟩
          simp [encReloc, ← e5, encodeInt_decodeInt]
        · rw [if_neg h4] at h; simp at h
      · rw [if_neg h3] at h; simp at h
    · rw [if_neg h2] at h; simp at h
  · rw [if_neg h1] at h; simp at h



theorem decodeList_ok {α : Type}
    {dec : Nat → List Nat → Except DecodeError (α × Nat × List Nat)}
    {encA : α → List Nat} {P : α → Prop}
    (hdec : ∀ {pos l a p rest}, dec pos l = .ok (a, p, rest) →
      l = encA a ++ rest ∧ P a) :
    ∀ {n pos : Nat} {l : List Nat} {as : List α} {p : Nat} {rest : List Nat},
      decodeList dec n pos l = .ok (as, p, rest) →
      l = as.flatMap encA ++ rest ∧ as.length = n ∧ ∀ a ∈ as, P a := by
  intro n
  induction n with
  | zero =>
    intro pos l as p rest h
    simp [decodeList] at h
    obtain ⟨e1, e2, e3⟩ := h
    subst e1; subst e2; subst e3
    simp
  | succ n ih =>
    intro pos l as p rest h
    simp only [decodeList] at h
    cases h1 : dec pos l with
    | error e => rw [h1] at h; simp at h
    | ok v =>
      obtain ⟨a, p1, l1⟩ := v
      rw [h1] at h
      dsimp only at h
      cases h2 : decodeList dec n p1 l1 with
      | error e => rw [h2] at h; simp at h
      | ok w =>
        obtain ⟨as2, p2, l2⟩ := w
        rw [h2] at h
        simp at h
        obtain ⟨e1, e2, e3⟩ := h
        subst e1; subst e2; subst e3
        obtain ⟨hl1, hP1⟩ := hdec h1
        obtain ⟨hl2, hn2, hP2⟩ := ih h2
        subst hl1; subst hl2; subst hn2
        refine ⟨by simp, by simp, ?_⟩
        intro x hx
        rcases List.mem_cons.mp hx with e | hx2
        · subst e; exact hP1
        · exact hP2 x hx2

theorem decodeModule_ok {l : List Nat} {M : Module}
    (h : decodeModule l = .ok M) : l = encodeModuleRaw M ∧ wfModule M := by
  obtain ⟨secs0, syms0, rels0⟩ := M
  cases l with
  | nil => simp [decodeModule] at h
  | cons magic l1 =>
  simp only [decodeModule] at h
  by_cases hm : magic ≠ objMagic
  · rw [if_pos hm] at h; simp at h
  · rw [if_neg hm] at h
    push_neg at hm
    subst hm
    cases l1 with
    | nil => simp at h
    | cons nsec l2 =>
    dsimp only at h
    cases h3 : decodeList decodeSection nsec 2 l2 with
    | error e => rw [h3] at h; simp at h
    | ok v3 =>
      obtain ⟨secs, p3, l3⟩ := v3
      rw [h3] at h
      dsimp only at h
      cases l3 with
      | nil => simp at h
      | cons nsym l4 =>
      dsimp only at h
      cases h5 : decodeList (decodeSymbol secs.length) nsym (p3 + 1) l4 with
      | error e => rw [h5] at h; simp at h
      | ok v5 =>
        obtain ⟨syms, p5, l5⟩ := v5
        rw [h5] at h
        dsimp only at h
        cases l5 with
        | nil => simp at h
        | cons nrel l6 =>
        dsimp only at h
        cases h7 : decodeList (decodeReloc secs syms.length) nrel (p5 + 1) l6 with
        | error e => rw [h7] at h; simp at h
        | ok v7 =>
          obtain ⟨rels, p7, l7⟩ := v7
          rw [h7] at h
          dsimp only at h
          cases l7 with
          | cons x l8 => simp at h
          | nil =>
          simp at h
          obtain ⟨e1, e2, e3⟩ := h
          obtain ⟨hl2, hn2, _⟩ :=
            decodeList_ok (P := fun _ => True)
              (fun hd => ⟨decodeSection_ok hd, trivial⟩) h3
          obtain ⟨hl4, hn4, hPsym⟩ :=
            decodeList_ok (P := fun y => secIndexOk secs.length y.sec)
              (fun hd => decodeSymbol_ok hd) h5
          obtain ⟨hl6, hn6, hPrel⟩ :=
            decodeList_ok
              (P := fun r => relocInBounds secs r ∧ r.sym < syms.length ∧
                r.rtype < numRelocTypes)
              (fun hd => decodeReloc_ok hd) h7
          subst e1; subst e2; subst e3
          subst hl2; subst hl4; subst hl6; subst hn2; subst hn4; subst hn6
          refine ⟨?_, ?_, ?_⟩
          · simp [encodeModuleRaw]
          · exact hPsym
          · exact hPrel

/-! ## Round-trip and invariant lemmas -/

theorem canonRelocs_perm (rs : List Reloc) : (canonRelocs rs).Perm rs :=
  List.perm_insertionSort relocLE rs

theorem wfModule_canon {M : Module} (h : wfModule M) :
    wfModule (canonModule M) := by
  obtain ⟨h1, h2⟩ := h
  refine ⟨fun y hy => h1 y hy, fun r hr => ?_⟩
  exact h2 r ((List.mem_insertionSort relocLE).mp hr)

theorem structEquiv_canon (M : Module) : structEquiv (canonModule M) M :=
  ⟨rfl, rfl, canonRelocs_perm M.relocs⟩

theorem decodeModule_encodeModule {M : Module} (h : wfModule M) :
    decodeModule (encodeModule M) = .ok (canonModule M) :=
  decodeModule_encRaw (canonModule M) (wfModule_canon h)

theorem canonModule_of_sorted {M : Module}
    (h : List.Sorted relocLE M.relocs) : canonModule M = M := by
  unfold canonModule
  rw [show canonRelocs M.relocs = M.relocs from h.insertionSort_eq]

theorem relocInBounds_addSec {secs : List ObjSection} {r : Reloc}
    (s : ObjSection) (h : relocInBounds secs r) :
    relocInBounds (secs ++ [s]) r := by
  obtain ⟨h1, h2⟩ := h
  refine ⟨by simp; omega, ?_⟩
  rw [List.getD_append _ _ _ _ h1]
  exact h2

theorem applyOps_bounds : ∀ (ops : List ModelOp) (m m2 : Module),
    (∀ r ∈ m.relocs, relocInBounds m.sections r) →
    applyOps m ops = some m2 →
    ∀ r ∈ m2.relocs, relocInBounds m2.sections r := by
  intro ops
  induction ops with
  | nil =>
    intro m m2 hm h
    simp [applyOps] at h
    subst h
    exact hm
  | cons op ops ih =>
    intro m m2 hm h
    cases op with
    | addSec s =>
      simp only [applyOps, applyOp] at h
      refine ih (addSection m s) m2 ?_ h
      intro r hr
      exact relocInBounds_addSec s (hm r hr)
    | addSym y =>
      simp only [applyOps, applyOp] at h
      exact ih (addSymbol m y) m2 hm h
    | addRel r0 =>
      simp only [applyOps, applyOp] at h
      by_cases hb : relocInBounds m.sections r0
      · rw [addReloc, if_pos hb] at h
        dsimp only at h
        refine ih _ m2 ?_ h
        intro r hr
        rcases List.mem_append.mp hr with hr2 | hr2
        · exact hm r hr2
        · rw [List.mem_singleton] at hr2
          subst hr2
          exact hb
      · rw [addReloc, if_neg hb] at h
        dsimp only at h
        exact absurd h (by simp)

/-! ## Claims C1, C4 and C6 -/

/-- C1: for a well-formed object buffer, encode after decode is byte-identical
when the relocation list is already in canonical order and yields a
structurally equivalent module (same sections, symbols and relocations up to
order) when it is not; conversely decode after encode recovers any
well-formed model up to canonical relocation order.  In this model the
canonical ordering is the relocation order; the sorted export table belongs
to the RsoCodec layer, which carries no analysis-derived data either. -/
theorem elf_round_trip :
    (∀ M : Module, wfModule M →
      decodeModule (encodeModule M) = .ok (canonModule M) ∧
      structEquiv (canonModule M) M) ∧
    (∀ (bytes : List Nat) (M : Module), decodeModule bytes = .ok M →
      (List.Sorted relocLE M.relocs → encodeModule M = bytes) ∧
      decodeModule (encodeModule M) = .ok (canonModule M) ∧
      structEquiv (canonModule M) M) := by
  constructor
  · intro M h
    exact ⟨decodeModule_encodeModule h, structEquiv_canon M⟩
  · intro bytes M h
    obtain ⟨hbytes, hwf⟩ := decodeModule_ok h
    refine ⟨?_, decodeModule_encodeModule hwf, structEquiv_canon M⟩
    intro hs
    rw [encodeModule, canonModule_of_sorted hs]
    exact hbytes.symm

/-- Witness for `elf_round_trip` at a concrete module whose relocation list
is not canonically ordered. -/
theorem elf_round_trip_witness :
    decodeModule (encodeModule exampleModule) = .ok (canonModule exampleModule) ∧
    structEquiv (canonModule exampleModule) exampleModule :=
  elf_round_trip.1 exampleModule (by decide)

/-- C6: malformed input is fatal: a wrong magic value fails at offset 0 with
the expected and actual values, a truncated buffer fails with a truncation
error at the offending offset, an out-of-range index fails with the bound and
the actual index, and a failed decode leaves the caller module untouched
(never partially populated).  Every `DecodeError` constructor carries the
offending offset with expected and actual values by construction. -/
theorem decode_malformed_fatal :
    (∀ (b : Nat) (rest : List Nat), b ≠ objMagic →
      decodeModule (b :: rest) = .error (.badMagic 0 objMagic b)) ∧
    decodeModule [] = .error (.truncated 0 1 0) ∧
    decodeModule [objMagic, 0, 1, 9, 6, 0, 0, 0, 0, 0] =
      .error (.badIndex 4 0 6) ∧
    (∀ (m0 : Module) (bytes : List Nat) (e : DecodeError),
      decodeModule bytes = .error e → decodeInto m0 bytes = m0) := by
  refine ⟨?_, rfl, rfl, ?_⟩
  · intro b rest hb
    simp only [decodeModule]
    rw [if_pos hb]
  · intro m0 bytes e h
    simp [decodeInto, h]

/-- Witness for `decode_malformed_fatal`: a concrete bad-magic buffer and a
concrete failed decode that leaves the module unchanged. -/
theorem decode_malformed_fatal_witness :
    decodeModule [0] = .error (.badMagic 0 objMagic 0) ∧
    decodeInto exampleModule [] = exampleModule := by
  constructor
  · exact decode_malformed_fatal.1 0 [] (by decide)
  · exact decode_malformed_fatal.2.2.2 exampleModule [] (.truncated 0 1 0) rfl

/-- C4: the relocation bounds invariant: appending an out-of-bounds
relocation fails immediately and returns no module, a successful append
implies the bound, every decoded module satisfies the bound for all its
relocations, and no sequence of append operations starting from the empty
model can produce a module violating the bound.  Offsets are naturals, so
the lower bound 0 ≤ offset holds by type. -/
theorem objectModel_reloc_bounds :
    (∀ (m : Module) (r : Reloc), ¬ relocInBounds m.sections r →
      addReloc m r = none) ∧
    (∀ (m : Module) (r : Reloc) (m2 : Module), addReloc m r = some m2 →
      relocInBounds m.sections r) ∧
    (∀ (bytes : List Nat) (M : Module), decodeModule bytes = .ok M →
      ∀ r ∈ M.relocs, relocInBounds M.sections r) ∧
    (∀ (ops : List ModelOp) (m2 : Module), applyOps emptyModule ops = some m2 →
      ∀ r ∈ m2.relocs, relocInBounds m2.sections r) := by
  refine ⟨?_, ?_, ?_, ?_⟩
  · intro m r h
    simp [addReloc, h]
  · intro m r m2 h
    by_cases hb : relocInBounds m.sections r
    · exact hb
    · simp [addReloc, hb] at h
  · intro bytes M h r hr
    exact ((decodeModule_ok h).2.2 r hr).1
  · intro ops m2 h
    refine applyOps_bounds ops emptyModule m2 ?_ h
    intro r hr
    simp [emptyModule] at hr

/-- Witness for `objectModel_reloc_bounds`: a rejected out-of-bounds append
and an in-bounds relocation reached through a concrete operation
sequence. -/
theorem objectModel_reloc_bounds_witness :
    addReloc emptyModule ⟨0, 0, 0, 0, 0⟩ = none ∧
    relocInBounds [⟨1, 0, 4, [10, 11, 12]⟩] ⟨0, 2, 0, 1, -1⟩ := by
  constructor
  · exact objectModel_reloc_bounds.1 emptyModule _ (by decide)
  · exact objectModel_reloc_bounds.2.2.2 exampleOps
      ⟨[⟨1, 0, 4, [10, 11, 12]⟩], [], [⟨0, 2, 0, 1, -1⟩]⟩
      rfl ⟨0, 2, 0, 1, -1⟩ (by decide)

/-! ## Claim C5 -/

theorem length_le_of_nodup_lt {l : List Nat} {n : Nat} (hnd : l.Nodup)
    (hlt : ∀ x ∈ l, x < n) : l.length ≤ n := by
  have h1 : l.toFinset ⊆ Finset.range n := by
    intro x hx
    rw [List.mem_toFinset] at hx
    exact Finset.mem_range.mpr (hlt x hx)
  have h2 := Finset.card_le_card h1
  rwa [List.toFinset_card_of_nodup hnd, Finset.card_range] at h2

theorem succOffsets_length_le (f : Nat → InstrKind) (o : Nat) :
    (succOffsets f o).length ≤ 2 := by
  unfold succOffsets
  cases f o <;> simp

theorem analyzeFuel_some :
    ∀ (fuel : Nat) (f : Nat → InstrKind) (len : Nat) (visited wl : List Nat),
      visited.Nodup → (∀ v ∈ visited, v < len) →
      3 * (len - visited.length) + wl.length + 1 ≤ fuel →
      ∃ res : List Nat, analyzeFuel f len fuel visited wl = Option.some res ∧
        res.Nodup ∧ ∀ v ∈ res, v < len := by
  intro fuel
  induction fuel with
  | zero =>
    intro f len visited wl hnd hlt hfuel
    omega
  | succ fuel ih =>
    intro f len visited wl hnd hlt hfuel
    cases wl with
    | nil => exact ⟨visited, rfl, hnd, hlt⟩
    | cons o rest =>
      simp only [analyzeFuel]
      by_cases ho : o ∈ visited ∨ len ≤ o
      · rw [if_pos ho]
        refine ih f len visited rest hnd hlt ?_
        simp only [List.length_cons] at hfuel
        omega
      · rw [if_neg ho]
        push_neg at ho
        obtain ⟨hnv, hol⟩ := ho
        have hnd2 : (o :: visited).Nodup := List.nodup_cons.mpr ⟨hnv, hnd⟩
        have hlt2 : ∀ v ∈ o :: visited, v < len := by
          intro v hv
          rcases List.mem_cons.mp hv with e | hv2
          · subst e; exact hol
          · exact hlt v hv2
        refine ih f len (o :: visited) _ hnd2 hlt2 ?_
        have hfl : ((succOffsets f o).filter (fun t => t < len)).length ≤ 2 :=
          le_trans (List.length_filter_le _ _) (succOffsets_length_le f o)
        have hvl : (o :: visited).length ≤ len := length_le_of_nodup_lt hnd2 hlt2
        simp only [List.length_append, List.length_cons] at hfuel hvl ⊢
        omega

/-- C5: the worklist traversal of the ControlFlowAnalyzer terminates on
every input: with fuel linear in the section length the traversal always
completes (never exhausts its fuel), because the visited set keyed by offset
bounds the work; the visited set it returns has no duplicate offset (each
offset is visited at most once). -/
theorem controlFlow_terminates (f : Nat → InstrKind) (len : Nat)
    (seeds : List Nat) :
    ∃ res : List Nat, analyzeSection f len seeds = Option.some res ∧
      res.Nodup ∧ ∀ v ∈ res, v < len := by
  refine analyzeFuel_some (3 * len + seeds.length + 1) f len [] seeds
    List.nodup_nil ?_ ?_
  · intro v hv
    simp at hv
  · simp

/-! ## Claims C2 and C3 -/

theorem le_emitSkips_bound (d : Nat) : d ≤ relDeltaMax * (d + 1) := by
  have h1 : 1 * (d + 1) ≤ relDeltaMax * (d + 1) :=
    Nat.mul_le_mul_right _ (by norm_num [relDeltaMax])
  omega

theorem patchPositions_emitSkipsF :
    ∀ (fuel d : Nat), d ≤ relDeltaMax * (fuel + 1) →
      ∀ (cs : Option Nat) (cur t : Nat) (tail : List RelOp),
        patchPositions cs cur ((emitSkipsF fuel d).1 ++
          RelOp.patch t (emitSkipsF fuel d).2 :: tail) =
        (cs, cur + d) :: patchPositions cs (cur + d) tail := by
  intro fuel
  induction fuel with
  | zero =>
    intro d hd cs cur t tail
    simp [emitSkipsF, patchPositions]
  | succ fuel ih =>
    intro d hd cs cur t tail
    by_cases h : d ≤ relDeltaMax
    · simp [emitSkipsF, h, patchPositions]
    · simp only [emitSkipsF, if_neg h, List.cons_append, patchPositions]
      rw [ih (d - relDeltaMax) (by simp only [relDeltaMax] at hd h ⊢; omega)]
      have he : cur + relDeltaMax + (d - relDeltaMax) = cur + d := by
        simp only [relDeltaMax] at h ⊢
        omega
      rw [he]

theorem decodeGroupGo_emitSkipsF :
    ∀ (fuel d : Nat), d ≤ relDeltaMax * (fuel + 1) →
      ∀ (s cur t : Nat) (tail : List RelOp),
        decodeGroupGo (Option.some s) cur ((emitSkipsF fuel d).1 ++
          RelOp.patch t (emitSkipsF fuel d).2 :: tail) =
        (decodeGroupGo (Option.some s) (cur + d) tail).map
          (fun es => { sec := s, offset := cur + d, rtype := t } :: es) := by
  intro fuel
  induction fuel with
  | zero =>
    intro d hd s cur t tail
    simp [emitSkipsF, decodeGroupGo]
  | succ fuel ih =>
    intro d hd s cur t tail
    by_cases h : d ≤ relDeltaMax
    · simp [emitSkipsF, h, decodeGroupGo]
    · simp only [emitSkipsF, if_neg h, List.cons_append, decodeGroupGo]
      rw [ih (d - relDeltaMax) (by simp only [relDeltaMax] at hd h ⊢; omega)]
      have he : cur + relDeltaMax + (d - relDeltaMax) = cur + d := by
        simp only [relDeltaMax] at h ⊢
        omega
      rw [he]

theorem patchPositions_emitSkips (d : Nat) (cs : Option Nat) (cur t : Nat)
    (tail : List RelOp) :
    patchPositions cs cur ((emitSkips d).1 ++
      RelOp.patch t (emitSkips d).2 :: tail) =
    (cs, cur + d) :: patchPositions cs (cur + d) tail :=
  patchPositions_emitSkipsF d d (le_emitSkips_bound d) cs cur t tail

theorem decodeGroupGo_emitSkips (d s cur t : Nat) (tail : List RelOp) :
    decodeGroupGo (Option.some s) cur ((emitSkips d).1 ++
      RelOp.patch t (emitSkips d).2 :: tail) =
    (decodeGroupGo (Option.some s) (cur + d) tail).map
      (fun es => { sec := s, offset := cur + d, rtype := t } :: es) :=
  decodeGroupGo_emitSkipsF d d (le_emitSkips_bound d) s cur t tail



theorem decodeGroupGo_encodeGroupGo :
    ∀ (es : List RelEntry) (cs : Option Nat) (cur : Nat),
      groupOrdered cs cur es →
      decodeGroupGo cs cur (encodeGroupGo cs cur es) = Option.some es := by
  intro es
  induction es with
  | nil =>
    intro cs cur _
    simp [encodeGroupGo, decodeGroupGo]
  | cons e rest ih =>
    intro cs cur h
    obtain ⟨h1, h2⟩ := h
    simp only [encodeGroupGo]
    by_cases hcs : cs = Option.some e.sec
    · rw [if_pos hcs]
      subst hcs
      rw [decodeGroupGo_emitSkips]
      have he : cur + (e.offset - cur) = e.offset := by
        have := h1 rfl
        omega
      rw [he, ih _ _ h2]
      simp
    · rw [if_neg hcs]
      simp only [decodeGroupGo]
      rw [decodeGroupGo_emitSkips]
      simp only [Nat.zero_add]
      rw [ih _ _ h2]
      simp

theorem patchPositions_encodeGroupGo :
    ∀ (es : List RelEntry) (cs : Option Nat) (cur : Nat),
      groupOrdered cs cur es →
      patchPositions cs cur (encodeGroupGo cs cur es) =
        es.map (fun e => (Option.some e.sec, e.offset)) := by
  intro es
  induction es with
  | nil =>
    intro cs cur _
    simp [encodeGroupGo, patchPositions]
  | cons e rest ih =>
    intro cs cur h
    obtain ⟨h1, h2⟩ := h
    simp only [encodeGroupGo]
    by_cases hcs : cs = Option.some e.sec
    · rw [if_pos hcs]
      subst hcs
      rw [patchPositions_emitSkips]
      have he : cur + (e.offset - cur) = e.offset := by
        have := h1 rfl
        omega
      rw [he, ih _ _ h2]
      simp
    · rw [if_neg hcs]
      simp only [patchPositions]
      rw [patchPositions_emitSkips]
      simp only [Nat.zero_add]
      rw [ih _ _ h2]
      simp

theorem sorted_chain_step (es : List RelEntry) (h : List.Sorted entryLE es) :
    List.Chain' (fun a b => a.sec = b.sec → a.offset ≤ b.offset) es := by
  refine (List.Pairwise.chain' h).imp ?_
  intro a b hab heq
  rcases hab with h1 | ⟨_, h2⟩
  · omega
  · exact h2

theorem sorted_groupOrdered :
    ∀ (es : List RelEntry),
      List.Chain' (fun a b => a.sec = b.sec → a.offset ≤ b.offset) es →
      ∀ (cs : Option Nat) (cur : Nat),
        (∀ e, es.head? = some e → cs = Option.some e.sec → cur ≤ e.offset) →
        groupOrdered cs cur es := by
  intro es
  induction es with
  | nil =>
    intro _ cs cur _
    trivial
  | cons e rest ih =>
    intro hch cs cur hhead
    obtain ⟨hr, hch2⟩ := List.chain'_cons'.mp hch
    refine ⟨fun hcs => hhead e rfl hcs, ?_⟩
    refine ih hch2 (Option.some e.sec) e.offset ?_
    intro e2 he2 hsec
    have hre : e.sec = e2.sec → e.offset ≤ e2.offset := by
      refine hr e2 ?_
      rw [he2]
      rfl
    exact hre (Option.some.inj hsec)



theorem firstUnresolved_spec :
    ∀ (rs : List RelReloc) (r : RelReloc), r ∈ rs → r.target = Option.none →
      ∃ (i : Nat) (rr : RelReloc), firstUnresolved rs = Option.some i ∧
        rs[i]? = some rr ∧ rr.target = Option.none := by
  intro rs
  induction rs with
  | nil =>
    intro r h
    cases h
  | cons a rest ih =>
    intro r hmem htar
    by_cases ha : a.target = Option.none
    · exact ⟨0, a, by simp [firstUnresolved, ha], by simp, ha⟩
    · rcases List.mem_cons.mp hmem with e | hmem2
      · subst e
        exact absurd htar ha
      · obtain ⟨i, rr, h1, h2, h3⟩ := ih r hmem2 htar
        exact ⟨i + 1, rr, by simp [firstUnresolved, ha, h1], by simpa using h2, h3⟩

/-- C3: a relocation whose target module cannot be determined makes RelCodec
encode fail with a resolution-failure outcome naming the offending relocation
by index, and no output buffer is produced. -/
theorem relCodec_unresolved_fails :
    ∀ (rs : List RelReloc) (r : RelReloc), r ∈ rs → r.target = Option.none →
      ∃ (i : Nat) (rr : RelReloc), encodeRel rs = .error i ∧
        rs[i]? = some rr ∧ rr.target = Option.none ∧
        ∀ out, encodeRel rs ≠ .ok out := by
  intro rs r hmem htar
  obtain ⟨i, rr, h1, h2, h3⟩ := firstUnresolved_spec rs r hmem htar
  refine ⟨i, rr, ?_, h2, h3, ?_⟩
  · unfold encodeRel
    rw [h1]
  · intro out hout
    unfold encodeRel at hout
    rw [h1] at hout
    simp at hout

/-- C2: every opcode stream produced by RelCodec encode has a monotone
cursor within each per-target-module group (the cursor restarts at a
section-switch marker, and inside each section run it never decreases), and
decoding such a stream followed by re-encoding reproduces the same opcode
sequence. -/
theorem relCodec_stream_mono :
    ∀ (rs : List RelReloc) (out : List (Nat × List RelOp)) (m : Nat)
      (stream : List RelOp),
      encodeRel rs = .ok out → (m, stream) ∈ out →
      cursorMono stream ∧
      ∃ es : List RelEntry, decodeGroup stream = Option.some es ∧
        encodeGroup (sortEntries es) = stream := by
  intro rs out m stream hok hmem
  unfold encodeRel at hok
  cases hfu : firstUnresolved rs with
  | some i =>
    rw [hfu] at hok
    simp at hok
  | none =>
    rw [hfu] at hok
    simp only [Except.ok.injEq] at hok
    subst hok
    obtain ⟨m0, hm0, heq⟩ := List.mem_map.mp hmem
    obtain ⟨he1, he2⟩ := Prod.mk.injEq .. |>.mp heq
    set es0 := sortEntries
      ((rs.filter (fun r => r.target = Option.some m0)).map toEntry) with hes0
    have hsorted : List.Sorted entryLE es0 :=
      List.sorted_insertionSort entryLE _
    have hord : groupOrdered Option.none 0 es0 :=
      sorted_groupOrdered es0 (sorted_chain_step es0 hsorted) Option.none 0
        (fun e _ hcontra => by cases hcontra)
    constructor
    · rw [← he2]
      unfold cursorMono encodeGroup
      rw [patchPositions_encodeGroupGo es0 Option.none 0 hord]
      rw [List.chain'_map]
      refine (sorted_chain_step es0 hsorted).imp ?_
      intro a b hab h1
      exact hab (Option.some.inj h1)
    · refine ⟨es0, ?_, ?_⟩
      · rw [← he2]
        exact decodeGroupGo_encodeGroupGo es0 Option.none 0 hord
      · rw [← he2]
        rw [show sortEntries es0 = es0 from hsorted.insertionSort_eq]

/-- Witness for `relCodec_stream_mono` on the stream encoded from
`exampleRelRelocs`. -/
theorem relCodec_stream_mono_witness :
    cursorMono exampleStream :=
  (relCodec_stream_mono exampleRelRelocs [(1, exampleStream)] 1 exampleStream
    rfl (by decide)).1

/-- Witness for `relCodec_unresolved_fails` on the concrete list with an
unresolved import. -/
theorem relCodec_unresolved_fails_witness :
    encodeRel exampleUnresolved ≠ .ok [] := by
  obtain ⟨i, rr, h1, h2, h3, h4⟩ := relCodec_unresolved_fails exampleUnresolved
    { target := Option.none, sec := 0, offset := 4, rtype := 1 } (by decide) rfl
  exact h4 []

end DecompToolkit
